import Mathlib

/-!
ThirdPersonController: target selection and attack interpolation.

Shallow embedding of `Source/UnrealTesting/Public/ThirdPersonController.cpp`.

Finite `float` and `double` values are the rationals they denote.  An
arithmetic operation returns the exact result rounded to the nearest value of
its type, ties to even (`toFloat` for binary32, `toDouble` for binary64);
comparisons are exact.  Infinities and NaN are not represented: statements
that depend on the value of an operation assume its result is within the
finite range of the type (`FloatFinite`, `DoubleFinite`).

Engine functions whose bodies are not part of the repository (vector
normalisation, vector length, distance, the float curve asset) are taken as
parameters, collected in `Engine`.  Array accesses that would run out of
bounds abort the frame and are modelled by `none`.
-/

namespace ThirdPersonController

/-! ## Floating point -/

/-- Nearest integer to `x`, ties to the even one. -/
def roundNearestEven (x : ℚ) : Int :=
  if x - ⌊x⌋ < 1 / 2 then ⌊x⌋
  else if 1 / 2 < x - ⌊x⌋ then ⌊x⌋ + 1
  else if ⌊x⌋ % 2 = 0 then ⌊x⌋ else ⌊x⌋ + 1

/-- Exponent of the unit in the last place at `q`, for a binary format with
`prec` significand bits whose least (subnormal) unit is `2 ^ emin`. -/
def ulpExponent (prec : Nat) (emin : Int) (q : ℚ) : Int :=
  max (Int.log 2 |q| - ((prec : Int) - 1)) emin

/-- Round to nearest, ties to even, in the binary format. -/
def roundBinary (prec : Nat) (emin : Int) (q : ℚ) : ℚ :=
  if q = 0 then 0
  else (roundNearestEven (q / (2 : ℚ) ^ ulpExponent prec emin q) : ℚ)
    * (2 : ℚ) ^ ulpExponent prec emin q

/-- Rounding to `float` (binary32): 24 significand bits, least unit `2 ^ -149`. -/
def toFloat (q : ℚ) : ℚ := roundBinary 24 (-149) q

/-- Rounding to `double` (binary64): 53 significand bits, least unit `2 ^ -1074`. -/
def toDouble (q : ℚ) : ℚ := roundBinary 53 (-1074) q

/-- Largest finite `float`, `FLT_MAX`. -/
def maxFloat : ℚ := (2 ^ 24 - 1) * 2 ^ 104

/-- Largest finite `double`, `DBL_MAX`. -/
def maxDouble : ℚ := (2 ^ 53 - 1) * 2 ^ 971

/-- The rounded value `q` is a finite `float`. -/
def FloatFinite (q : ℚ) : Prop := |q| ≤ maxFloat

/-- The rounded value `q` is a finite `double`. -/
def DoubleFinite (q : ℚ) : Prop := |q| ≤ maxDouble

instance (q : ℚ) : Decidable (FloatFinite q) :=
  inferInstanceAs (Decidable (|q| ≤ maxFloat))

instance (q : ℚ) : Decidable (DoubleFinite q) :=
  inferInstanceAs (Decidable (|q| ≤ maxDouble))

/-- Sum of two `float` values.  A zero operand returns the other operand. -/
def floatAdd (x y : ℚ) : ℚ :=
  if y = 0 then x else if x = 0 then y else toFloat (x + y)

/-- Quotient of two `float` values, for a non-zero divisor: the exact quotient
rounded to `float`. -/
def floatDiv (x y : ℚ) : ℚ := toFloat (x / y)

/-- Sum of two `double` values.  A zero operand returns the other operand. -/
def doubleAdd (x y : ℚ) : ℚ :=
  if y = 0 then x else if x = 0 then y else toDouble (x + y)

/-- Difference of two `double` values. -/
def doubleSub (x y : ℚ) : ℚ := doubleAdd x (-y)

/-- Product of two `double` values. -/
def doubleMul (x y : ℚ) : ℚ := toDouble (x * y)

/-! ## Engine types -/

/-- Engine type `FVector`; components are `double`. -/
structure FVector where
  X : ℚ
  Y : ℚ
  Z : ℚ
deriving DecidableEq

/-- Engine type `FVector2D`; components are `double`. -/
structure FVector2D where
  X : ℚ
  Y : ℚ
deriving DecidableEq

namespace FVector

/-- Componentwise sum, `operator+`. -/
def add (a b : FVector) : FVector :=
  ⟨doubleAdd a.X b.X, doubleAdd a.Y b.Y, doubleAdd a.Z b.Z⟩

/-- Componentwise difference, `operator-`. -/
def sub (a b : FVector) : FVector :=
  ⟨doubleSub a.X b.X, doubleSub a.Y b.Y, doubleSub a.Z b.Z⟩

/-- Multiplication by a scalar, `operator*`. -/
def scale (a : FVector) (k : ℚ) : FVector :=
  ⟨doubleMul a.X k, doubleMul a.Y k, doubleMul a.Z k⟩

/-- Dot product, `FVector::Dot`, which is `X * V.X + Y * V.Y + Z * V.Z`. -/
def Dot (a b : FVector) : ℚ :=
  doubleAdd (doubleAdd (doubleMul a.X b.X) (doubleMul a.Y b.Y)) (doubleMul a.Z b.Z)

end FVector

/-- Engine template `FMath::Lerp(A, B, Alpha)`, which is `A + Alpha * (B - A)`. -/
def Lerp (A B : FVector) (Alpha : ℚ) : FVector := A.add ((B.sub A).scale Alpha)

/-- One component of `FMath::Lerp` on vectors: `a + alpha * (b - a)` in `double`. -/
def lerpComponent (a b alpha : ℚ) : ℚ := doubleAdd a (doubleMul (doubleSub b a) alpha)

/-- Engine functions used by the controller whose bodies are outside the repository. -/
structure Engine where
  /-- Value of a vector after the in-place `FVector::Normalize()`. -/
  Normalize : FVector → FVector
  /-- Result of `FVector::GetSafeNormal()`. -/
  GetSafeNormal : FVector → FVector
  /-- Result of `FVector2D::Length()`. -/
  Length : FVector2D → ℚ
  /-- Result of `FVector::Distance(a, b)`. -/
  Distance : FVector → FVector → ℚ
  /-- Result of `powerCurveOnHit->GetFloatValue(t)`, the curve asset of the controller. -/
  powerCurveOnHit : ℚ → ℚ
  /-- Result of `powerCurveOnHit->GetFloatValue(x / y)` when the `float` quotient
  of `x` by `y` is infinite or NaN (`y` is zero, or the quotient is out of range). -/
  powerCurveOnHitNonFinite : ℚ → ℚ → ℚ

/-- What a call reads from the rest of the game: the world clock, the enemy
locations held by the AI manager (`AiManager->AiActorsInMap[i]->GetActorLocation()`),
the follow camera axes and the axes of the possessing controller (`none` when
`Controller` is null). -/
structure World where
  DeltaTimeSeconds : ℚ
  AiActorsInMap : List FVector
  cameraForward : FVector
  cameraRight : FVector
  controlAxes : Option (FVector × FVector)

/-- Member variables of `AThirdPersonController` read or written by the modelled
functions.  The timer, the duration and the distance threshold are `float`,
like the world's `DeltaTimeSeconds` and the argument of the curve. -/
structure AThirdPersonController where
  IsAttacking : Bool
  selectedAiIndex : Int
  attackTimer : ℚ
  attackDuration : ℚ
  attackLerpingMinDistance : ℚ
  attackVerticalOffset : FVector
  startingLocation : FVector
  /-- Actor transform location, read by `GetActorLocation` and written by `SetActorLocation`. -/
  ActorLocation : FVector
  CurrentInputDirection : FVector2D
  cameraForwardDirection : FVector
  cameraRightDirection : FVector
  /-- Pending movement input accumulated by `AddMovementInput`. -/
  ControlInputVector : FVector
deriving DecidableEq

/-- The expression `powerCurveOnHit->GetFloatValue(x / y)` of line 93, for
`float` values `x` and `y`. -/
def curveAtQuotient (E : Engine) (x y : ℚ) : ℚ :=
  if y ≠ 0 ∧ FloatFinite (floatDiv x y) then E.powerCurveOnHit (floatDiv x y)
  else E.powerCurveOnHitNonFinite x y

/-- Array access `AiActorsInMap[i]` with an `int` index; `none` when out of range. -/
def actorAt (actors : List FVector) (i : Int) : Option FVector :=
  if 0 ≤ i then actors[i.toNat]? else none

/-- Literal `0.1f` of the input dead zone test in `Tick`: the `float` nearest
to one tenth, `13421773 * 2 ^ -27`, compared as a `double` with the length. -/
def inputDeadZone : ℚ := 13421773 / 134217728

/-- The `for` loop of `Tick` (lines 128-136), started at index `i` with the
current `(closestEnemy, previousDot)`; `rest` holds the enemies from index `i`
on.  The `double` dot product is narrowed to the `float dotProduct`. -/
def selectLoop (E : Engine) (inputDirectionInWorld actorLocation : FVector) :
    List FVector → Nat → Int × ℚ → Int × ℚ
  | [], _, acc => acc
  | enemy :: rest, i, (closestEnemy, previousDot) =>
    let dotProduct :=
      toFloat (inputDirectionInWorld.Dot (E.GetSafeNormal (enemy.sub actorLocation)))
    if dotProduct > previousDot then
      selectLoop E inputDirectionInWorld actorLocation rest (i + 1) ((i : Int), dotProduct)
    else
      selectLoop E inputDirectionInWorld actorLocation rest (i + 1) (closestEnemy, previousDot)

/-- Engine call `Super::Tick(DeltaSeconds)` (`ACharacter::Tick`); it writes none
of the members modelled here. -/
def SuperTick (_DeltaSeconds : ℚ) (s : AThirdPersonController) : AThirdPersonController := s

/-- `AThirdPersonController::Tick`.  The argument `DeltaSeconds` is only handed
to `Super::Tick`; the attack timer advances by `GetWorld()->DeltaTimeSeconds`.
On-screen messages and debug drawing have no effect on the state; of the debug
sphere call only its array access `AiActorsInMap[selectedAiIndex]` is kept. -/
def Tick (E : Engine) (w : World) (DeltaSeconds : ℚ) (s : AThirdPersonController) :
    Option AThirdPersonController :=
  let s := SuperTick DeltaSeconds s
  if s.IsAttacking = true ∧ s.selectedAiIndex ≠ -1 then
    let s1 := { s with attackTimer := floatAdd s.attackTimer w.DeltaTimeSeconds }
    let currentActorLocation := s1.ActorLocation
    match actorAt w.AiActorsInMap s1.selectedAiIndex with
    | none => none
    | some enemyLocation =>
      if E.Distance currentActorLocation enemyLocation < s1.attackLerpingMinDistance then
        some { s1 with IsAttacking := false }
      else
        let getLerpAmount := curveAtQuotient E s1.attackTimer s1.attackDuration
        let lerpGoalLocation := { enemyLocation with Z := s1.startingLocation.Z }
        let s2 := { s1 with
          ActorLocation := Lerp s1.startingLocation lerpGoalLocation getLerpAmount }
        if s2.attackTimer ≥ s2.attackDuration then
          some { s2 with IsAttacking := false }
        else
          some s2
  else
    let s1 := { s with
      cameraForwardDirection := E.Normalize { w.cameraForward with Z := 0 }
      cameraRightDirection := E.Normalize { w.cameraRight with Z := 0 } }
    if E.Length s1.CurrentInputDirection < inputDeadZone then
      some { s1 with selectedAiIndex := 0 }
    else
      let inputDirectionInWorld := E.Normalize
        ((s1.cameraForwardDirection.scale s1.CurrentInputDirection.Y).add
          (s1.cameraRightDirection.scale s1.CurrentInputDirection.X))
      let closestEnemy :=
        (selectLoop E inputDirectionInWorld s1.ActorLocation w.AiActorsInMap 0 (0, -2)).1
      let s2 := { s1 with selectedAiIndex := closestEnemy }
      match actorAt w.AiActorsInMap s2.selectedAiIndex with
      | none => none
      | some _ => some s2

/-- Engine function `APawn::AddMovementInput(direction, scale)`: the scaled
direction is added to the pending movement input. -/
def AddMovementInput (WorldDirection : FVector) (ScaleValue : ℚ)
    (s : AThirdPersonController) : AThirdPersonController :=
  { s with ControlInputVector := s.ControlInputVector.add (WorldDirection.scale ScaleValue) }

/-- `AThirdPersonController::Move`. -/
def Move (E : Engine) (w : World) (Value : FVector2D)
    (s : AThirdPersonController) : AThirdPersonController :=
  if s.IsAttacking = true then s
  else
    let MovementVector := Value
    let s1 := { s with CurrentInputDirection := MovementVector }
    match w.controlAxes with
    | none => s1
    | some (axisX, axisY) =>
      let ForwardDirection := E.GetSafeNormal axisX
      let RightDirection := E.GetSafeNormal axisY
      AddMovementInput RightDirection MovementVector.X
        (AddMovementInput ForwardDirection MovementVector.Y s1)

/-- `AThirdPersonController::MoveCancelled`. -/
def MoveCancelled (s : AThirdPersonController) : AThirdPersonController :=
  { s with CurrentInputDirection := ⟨0, 0⟩ }

/-- `AThirdPersonController::Attack`. -/
def Attack (s : AThirdPersonController) : AThirdPersonController :=
  if s.selectedAiIndex ≠ -1 ∧ s.IsAttacking = false then
    { s with
      IsAttacking := true
      attackTimer := 0
      startingLocation := s.ActorLocation.add s.attackVerticalOffset }
  else s

/-- The engine callbacks that reach the controller between two attacks. -/
inductive Event where
  | tick (w : World) (DeltaSeconds : ℚ)
  | move (w : World) (Value : FVector2D)
  | moveCancelled
  | attack

/-- Effect of one event; `none` when the frame aborts on an out-of-range access. -/
def step (E : Engine) (e : Event) (s : AThirdPersonController) : Option AThirdPersonController :=
  match e with
  | Event.tick w d => Tick E w d s
  | Event.move w v => some (Move E w v s)
  | Event.moveCancelled => some (MoveCancelled s)
  | Event.attack => some (Attack s)

/-- Effect of a sequence of events, first event first. -/
def runEvents (E : Engine) : List Event → AThirdPersonController → Option AThirdPersonController
  | [], s => some s
  | e :: es, s => (step E e s).bind (runEvents E es)

/-! ## Quantities the statements refer to -/

/-- The `float` timer after the increment of line 84. -/
def advancedTimer (w : World) (s : AThirdPersonController) : ℚ :=
  floatAdd s.attackTimer w.DeltaTimeSeconds

/-- Curve value the lerp branch of `Tick` reads in a frame: the curve at the
`float` quotient of the advanced timer by `attackDuration`. -/
def lerpAmount (E : Engine) (w : World) (s : AThirdPersonController) : ℚ :=
  curveAtQuotient E (advancedTimer w s) s.attackDuration

/-- The three `double` operations of one lerp component stay finite. -/
def LerpFinite (a b alpha : ℚ) : Prop :=
  DoubleFinite (doubleSub b a) ∧
  DoubleFinite (doubleMul (doubleSub b a) alpha) ∧
  DoubleFinite (lerpComponent a b alpha)

/-- Camera-relative input direction in world space, as `Tick` computes it:
the camera axes flattened to `Z = 0` and normalised, combined with the input
vector and normalised again. -/
def worldInputDirection (E : Engine) (w : World) (s : AThirdPersonController) : FVector :=
  E.Normalize
    (((E.Normalize { w.cameraForward with Z := 0 }).scale s.CurrentInputDirection.Y).add
      ((E.Normalize { w.cameraRight with Z := 0 }).scale s.CurrentInputDirection.X))

/-- Score of an enemy as a `double`: dot product of the input direction with
the direction from the player to the enemy. -/
def targetScore (E : Engine) (w : World) (s : AThirdPersonController) (enemy : FVector) : ℚ :=
  (worldInputDirection E w s).Dot (E.GetSafeNormal (enemy.sub s.ActorLocation))

/-- Score of an enemy as the loop compares it: narrowed to `float`. -/
def floatScore (E : Engine) (w : World) (s : AThirdPersonController) (enemy : FVector) : ℚ :=
  toFloat (targetScore E w s enemy)

/-! ## A concrete engine for evaluation -/

/-- Rational square root when the argument is the square of a rational. -/
def exactSqrt (q : ℚ) : Option ℚ :=
  let r := Rat.sqrt q
  if r * r = q then some r else none

/-- Exact squared length of a vector. -/
def exactSizeSquared (v : FVector) : ℚ := v.X * v.X + v.Y * v.Y + v.Z * v.Z

/-- Unit vector along `v` when its length is a non-zero rational, the zero vector otherwise. -/
def exactNormal (v : FVector) : FVector :=
  match exactSqrt (exactSizeSquared v) with
  | some r => if r = 0 then ⟨0, 0, 0⟩ else ⟨v.X * (1 / r), v.Y * (1 / r), v.Z * (1 / r)⟩
  | none => ⟨0, 0, 0⟩

/-- Euclidean length when it is rational, `0` otherwise. -/
def exactSize (v : FVector) : ℚ := (exactSqrt (exactSizeSquared v)).getD 0

/-- An engine that is exact on vectors of rational length; the curve is the
identity, held at its end values `0` and `1` outside the finite range. -/
def exactEngine : Engine where
  Normalize := exactNormal
  GetSafeNormal := exactNormal
  Length := fun v => exactSize ⟨v.X, v.Y, 0⟩
  Distance := fun a b => exactSize ⟨a.X - b.X, a.Y - b.Y, a.Z - b.Z⟩
  powerCurveOnHit := fun t => t
  powerCurveOnHitNonFinite := fun x _ => if 0 < x then 1 else 0

/-- The squared length as `FVector::GetSafeNormal` computes it, in `double`. -/
def squareSum (v : FVector) : ℚ :=
  doubleAdd (doubleAdd (doubleMul v.X v.X) (doubleMul v.Y v.Y)) (doubleMul v.Z v.Z)

/-- The engine with the first test of `FVector::GetSafeNormal`: a vector whose
computed squared length is `1` is returned as it is. -/
def unitAwareEngine : Engine :=
  { exactEngine with
    GetSafeNormal := fun v => if squareSum v = 1 then v else exactNormal v }

/-- A world with two enemies, straight ahead and to the right of the origin. -/
def sampleWorld : World where
  DeltaTimeSeconds := 1 / 10
  AiActorsInMap := [⟨3, 4, 0⟩, ⟨0, 5, 0⟩]
  cameraForward := ⟨1, 0, 0⟩
  cameraRight := ⟨0, 1, 0⟩
  controlAxes := some (⟨1, 0, 0⟩, ⟨0, 1, 0⟩)

/-- An idle controller at the origin with no movement input. -/
def idleController : AThirdPersonController where
  IsAttacking := false
  selectedAiIndex := 1
  attackTimer := 0
  attackDuration := 1
  attackLerpingMinDistance := 1
  attackVerticalOffset := ⟨0, 0, 0⟩
  startingLocation := ⟨0, 0, 0⟩
  ActorLocation := ⟨0, 0, 0⟩
  CurrentInputDirection := ⟨0, 0⟩
  cameraForwardDirection := ⟨0, 0, 0⟩
  cameraRightDirection := ⟨0, 0, 0⟩
  ControlInputVector := ⟨0, 0, 0⟩

/-- An attacking controller at the origin, half way through its attack on enemy 0. -/
def attackingController : AThirdPersonController :=
  { idleController with
    IsAttacking := true
    selectedAiIndex := 0
    attackTimer := 2 / 5
    CurrentInputDirection := ⟨0, 1⟩ }

/-- An idle controller at the origin with the stick pushed forward. -/
def steeringController : AThirdPersonController :=
  { idleController with CurrentInputDirection := ⟨0, 1⟩ }

/-- A world like `sampleWorld` whose frame time is a quarter of a second. -/
def quarterWorld : World :=
  { sampleWorld with DeltaTimeSeconds := 1 / 4 }

/-- An attacking controller a quarter of a second into its attack on enemy 0. -/
def lungingController : AThirdPersonController :=
  { attackingController with attackTimer := 1 / 4 }

/-- A world like `sampleWorld` whose frame time is the `float` `0.1f`. -/
def roundingWorld : World :=
  { sampleWorld with DeltaTimeSeconds := 13421773 / 134217728 }

/-- An attacking controller with timer `0.7f` and duration `0.8f`. -/
def roundingController : AThirdPersonController :=
  { attackingController with
    attackTimer := 11744051 / 16777216
    attackDuration := 13421773 / 16777216 }

/-- The `double` nearest to one tenth, `0.1`. -/
def tenthDouble : ℚ := 3602879701896397 / 36028797018963968

/-- A world with one enemy at `X = 0.1` and a frame time of half a second. -/
def nearWorld : World :=
  { sampleWorld with
    DeltaTimeSeconds := 1 / 2
    AiActorsInMap := [⟨tenthDouble, 0, 0⟩] }

/-- An attacking controller that started at `X = 100`, half a second into an
attack that lasts one second. -/
def farController : AThirdPersonController :=
  { attackingController with
    attackTimer := 1 / 2
    startingLocation := ⟨100, 0, 0⟩
    ActorLocation := ⟨100, 0, 0⟩ }

/-- The `double` just below one, `1 - 2 ^ -53`. -/
def belowOne : ℚ := 9007199254740991 / 9007199254740992

/-- A world with an enemy almost straight ahead and one exactly straight ahead. -/
def nearTieWorld : World :=
  { sampleWorld with AiActorsInMap := [⟨belowOne, 1 / 67108864, 0⟩, ⟨1, 0, 0⟩] }

/-- A world with an enemy to the right and one straight ahead. -/
def sideWorld : World :=
  { sampleWorld with AiActorsInMap := [⟨0, 5, 0⟩, ⟨5, 0, 0⟩] }

/-- A world with an enemy straight ahead and one to the right. -/
def axisWorld : World :=
  { sampleWorld with AiActorsInMap := [⟨5, 0, 0⟩, ⟨0, 5, 0⟩] }

/-- An idle controller at the origin with the stick pushed forward by `0.1`. -/
def nudgingController : AThirdPersonController :=
  { idleController with CurrentInputDirection := ⟨0, tenthDouble⟩ }

/-! ## Evaluation of the rounding functions -/

theorem roundNearestEven_of_near (x : ℚ) (n : Int) (h1 : (n : ℚ) - 1 / 2 < x)
    (h2 : x < (n : ℚ) + 1 / 2) : roundNearestEven x = n := by
  unfold roundNearestEven
  by_cases hx : (n : ℚ) ≤ x
  · have hf : ⌊x⌋ = n := Int.floor_eq_iff.mpr ⟨hx, by linarith⟩
    rw [hf, if_pos (by linarith)]
  · have hx2 : x < n := not_le.mp hx
    have hf : ⌊x⌋ = n - 1 := by
      apply Int.floor_eq_iff.mpr
      push_cast
      constructor <;> linarith
    have h3 : ¬ (x - ((n - 1 : Int) : ℚ) < 1 / 2) := by
      push_cast
      linarith
    have h4 : (1 : ℚ) / 2 < x - ((n - 1 : Int) : ℚ) := by
      push_cast
      linarith
    rw [hf, if_neg h3, if_pos h4]
    ring

theorem log_two_eq (q : ℚ) (k : Int) (h1 : (2 : ℚ) ^ k ≤ q) (h2 : q < (2 : ℚ) ^ (k + 1)) :
    Int.log 2 q = k := by
  have hq : 0 < q := lt_of_lt_of_le (by positivity) h1
  have a : k ≤ Int.log 2 q :=
    (Int.zpow_le_iff_le_log (by norm_num) hq).mp (by exact_mod_cast h1)
  have b : Int.log 2 q < k + 1 :=
    (Int.lt_zpow_iff_log_lt (by norm_num) hq).mp (by exact_mod_cast h2)
  omega

/-- Value of `roundBinary` at `q`, from the binade `k` of `|q|`, the exponent `e`
of its unit in the last place and the integer `n` nearest to `q / 2 ^ e`. -/
theorem roundBinary_eval_abs (prec : Nat) (emin : Int) (q : ℚ) (k e n : Int)
    (h1 : (2 : ℚ) ^ k ≤ |q|) (h2 : |q| < (2 : ℚ) ^ (k + 1))
    (he : max (k - ((prec : Int) - 1)) emin = e)
    (hn1 : (n : ℚ) - 1 / 2 < q / (2 : ℚ) ^ e) (hn2 : q / (2 : ℚ) ^ e < (n : ℚ) + 1 / 2) :
    roundBinary prec emin q = (n : ℚ) * (2 : ℚ) ^ e := by
  have hq : q ≠ 0 := by
    intro h
    rw [h, abs_zero] at h1
    have : (0 : ℚ) < 2 ^ k := by positivity
    linarith
  unfold roundBinary ulpExponent
  rw [if_neg hq, log_two_eq |q| k h1 h2, he, roundNearestEven_of_near _ n hn1 hn2]

/-- Evaluation of `roundBinary` at a positive `q`. -/
theorem roundBinary_eval (prec : Nat) (emin : Int) (q : ℚ) (k e n : Int)
    (h1 : (2 : ℚ) ^ k ≤ q) (h2 : q < (2 : ℚ) ^ (k + 1))
    (he : max (k - ((prec : Int) - 1)) emin = e)
    (hn1 : (n : ℚ) - 1 / 2 < q / (2 : ℚ) ^ e) (hn2 : q / (2 : ℚ) ^ e < (n : ℚ) + 1 / 2) :
    roundBinary prec emin q = (n : ℚ) * (2 : ℚ) ^ e := by
  have hq : 0 < q := lt_of_lt_of_le (by positivity) h1
  apply roundBinary_eval_abs prec emin q k e n _ _ he hn1 hn2
  · rwa [abs_of_pos hq]
  · rwa [abs_of_pos hq]

/-- Evaluation of `roundBinary` at a negative `q`. -/
theorem roundBinary_eval_neg (prec : Nat) (emin : Int) (q : ℚ) (k e n : Int)
    (h1 : (2 : ℚ) ^ k ≤ -q) (h2 : -q < (2 : ℚ) ^ (k + 1))
    (he : max (k - ((prec : Int) - 1)) emin = e)
    (hn1 : (n : ℚ) - 1 / 2 < q / (2 : ℚ) ^ e) (hn2 : q / (2 : ℚ) ^ e < (n : ℚ) + 1 / 2) :
    roundBinary prec emin q = (n : ℚ) * (2 : ℚ) ^ e := by
  have hq : q < 0 := by
    have : (0 : ℚ) < 2 ^ k := by positivity
    linarith
  apply roundBinary_eval_abs prec emin q k e n _ _ he hn1 hn2
  · rwa [abs_of_neg hq]
  · rwa [abs_of_neg hq]

@[simp] theorem toDouble_zero : toDouble 0 = 0 := by
  simp [toDouble, roundBinary]

@[simp] theorem toFloat_zero : toFloat 0 = 0 := by
  simp [toFloat, roundBinary]

@[simp] theorem toDouble_one : toDouble 1 = 1 := by
  unfold toDouble
  rw [roundBinary_eval 53 (-1074) _ 0 (-52) (2 ^ 52)] <;> norm_num

@[simp] theorem toFloat_one : toFloat 1 = 1 := by
  unfold toFloat
  rw [roundBinary_eval 24 (-149) _ 0 (-23) (2 ^ 23)] <;> norm_num

@[simp] theorem toFloat_half : toFloat (1 / 2) = 1 / 2 := by
  unfold toFloat
  rw [roundBinary_eval 24 (-149) _ (-1) (-24) (2 ^ 23)] <;> norm_num

@[simp] theorem doubleAdd_zero_right (x : ℚ) : doubleAdd x 0 = x := by
  simp [doubleAdd]

@[simp] theorem doubleAdd_zero_left (y : ℚ) : doubleAdd 0 y = y := by
  unfold doubleAdd
  by_cases h : y = 0 <;> simp [h]

@[simp] theorem doubleSub_zero (x : ℚ) : doubleSub x 0 = x := by
  simp [doubleSub]

@[simp] theorem doubleSub_self (x : ℚ) : doubleSub x x = 0 := by
  unfold doubleSub doubleAdd
  by_cases h : x = 0 <;> simp [h]

@[simp] theorem doubleMul_zero_left (y : ℚ) : doubleMul 0 y = 0 := by
  simp [doubleMul]

@[simp] theorem doubleMul_zero_right (x : ℚ) : doubleMul x 0 = 0 := by
  simp [doubleMul]

theorem floatAdd_of_exact (x y : ℚ) (h : toFloat (x + y) = x + y) : floatAdd x y = x + y := by
  unfold floatAdd
  by_cases hy : y = 0
  · simp [hy]
  · by_cases hx : x = 0
    · simp [hx, hy]
    · simp [hx, hy, h]

theorem lerpComponent_self (a alpha : ℚ) : lerpComponent a a alpha = a := by
  simp [lerpComponent]

theorem lerpComponent_zero (a b : ℚ) : lerpComponent a b 0 = a := by
  simp [lerpComponent]

theorem lerpComponent_one (a b : ℚ) (hd : toDouble (b - a) = b - a) (hb : toDouble b = b) :
    lerpComponent a b 1 = b := by
  have hsub : doubleSub b a = b - a := by
    unfold doubleSub doubleAdd
    by_cases ha : -a = 0
    · have : a = 0 := by linarith
      simp [this]
    · by_cases hb0 : b = 0
      · simp [ha, hb0]
      · simp only [ha, hb0, if_false]
        rw [← sub_eq_add_neg, hd]
  unfold lerpComponent
  rw [hsub]
  unfold doubleMul
  rw [mul_one, hd]
  unfold doubleAdd
  by_cases h0 : b - a = 0
  · rw [if_pos h0]
    linarith
  · rw [if_neg h0]
    by_cases ha : a = 0
    · rw [if_pos ha, ha, sub_zero]
    · rw [if_neg ha]
      have : a + (b - a) = b := by ring
      rw [this, hb]

theorem Lerp_components (A B : FVector) (alpha : ℚ) :
    Lerp A B alpha =
      ⟨lerpComponent A.X B.X alpha, lerpComponent A.Y B.Y alpha,
        lerpComponent A.Z B.Z alpha⟩ := rfl

/-! ## Evaluation lemmas for the concrete engine -/

theorem exactSqrt_mul_self (r : ℚ) (h : 0 ≤ r) : exactSqrt (r * r) = some r := by
  unfold exactSqrt
  simp [Rat.sqrt_eq, abs_of_nonneg h]

theorem exactSize_eq (v : FVector) (r : ℚ) (h : 0 ≤ r) (hv : exactSizeSquared v = r * r) :
    exactSize v = r := by
  unfold exactSize
  rw [hv, exactSqrt_mul_self r h]
  rfl

theorem exactNormal_eq (v : FVector) (r : ℚ) (h : 0 < r) (hv : exactSizeSquared v = r * r) :
    exactNormal v = ⟨v.X * (1 / r), v.Y * (1 / r), v.Z * (1 / r)⟩ := by
  unfold exactNormal
  rw [hv, exactSqrt_mul_self r h.le]
  simp [h.ne']

theorem actorAt_natCast (actors : List FVector) (k : Nat) :
    actorAt actors (k : Int) = actors[k]? := by
  simp [actorAt]

/-! ## Attack interpolation -/

/-- The attacking branch of `Tick`, spelled out for a selected enemy in range. -/
theorem Tick_attacking (E : Engine) (w : World) (d : ℚ) (s : AThirdPersonController)
    (enemy : FVector)
    (hA : s.IsAttacking = true) (hS : s.selectedAiIndex ≠ -1)
    (hE : actorAt w.AiActorsInMap s.selectedAiIndex = some enemy) :
    Tick E w d s =
      if E.Distance s.ActorLocation enemy < s.attackLerpingMinDistance then
        some { s with attackTimer := advancedTimer w s, IsAttacking := false }
      else if advancedTimer w s ≥ s.attackDuration then
        some { s with
          attackTimer := advancedTimer w s
          ActorLocation := Lerp s.startingLocation { enemy with Z := s.startingLocation.Z }
            (lerpAmount E w s)
          IsAttacking := false }
      else
        some { s with
          attackTimer := advancedTimer w s
          ActorLocation := Lerp s.startingLocation { enemy with Z := s.startingLocation.Z }
            (lerpAmount E w s) } := by
  unfold Tick SuperTick lerpAmount advancedTimer
  simp only [hA, hS, ne_eq, not_false_eq_true, and_self, if_true, hE]

theorem selected_ne_neg_one (actors : List FVector) (i : Int) (enemy : FVector)
    (hE : actorAt actors i = some enemy) : i ≠ -1 := by
  intro h
  rw [h] at hE
  simp [actorAt] at hE

theorem sample_selected_enemy :
    actorAt sampleWorld.AiActorsInMap attackingController.selectedAiIndex = some ⟨3, 4, 0⟩ := by
  simp [actorAt, sampleWorld, attackingController, idleController]

theorem sample_distance :
    exactEngine.Distance attackingController.ActorLocation ⟨3, 4, 0⟩ = 5 := by
  show exactSize _ = 5
  apply exactSize_eq _ 5 (by norm_num)
  norm_num [exactSizeSquared, attackingController, idleController]

theorem sample_not_in_reach :
    ¬ exactEngine.Distance attackingController.ActorLocation ⟨3, 4, 0⟩
        < attackingController.attackLerpingMinDistance := by
  rw [sample_distance]
  norm_num [attackingController, idleController]

/-- C7. Whatever the curve returns and wherever the enemy is, the location the
lerp branch of an attacking `Tick` assigns to the player has `Z` equal to
`startingLocation.Z`. -/
theorem Tick_attack_lerp_height (E : Engine) (w : World) (d : ℚ) (s : AThirdPersonController)
    (enemy : FVector)
    (hA : s.IsAttacking = true)
    (hE : actorAt w.AiActorsInMap s.selectedAiIndex = some enemy)
    (hD : ¬ E.Distance s.ActorLocation enemy < s.attackLerpingMinDistance) :
    ∃ s', Tick E w d s = some s' ∧ s'.ActorLocation.Z = s.startingLocation.Z := by
  have hS : s.selectedAiIndex ≠ -1 := selected_ne_neg_one _ _ _ hE
  have hT := Tick_attacking E w d s enemy hA hS hE
  rw [if_neg hD] at hT
  have hZ : ∀ c : ℚ,
      (Lerp s.startingLocation { enemy with Z := s.startingLocation.Z } c).Z
        = s.startingLocation.Z := by
    intro c
    rw [Lerp_components]
    exact lerpComponent_self _ _
  by_cases hT2 : advancedTimer w s ≥ s.attackDuration
  · rw [if_pos hT2] at hT
    exact ⟨_, hT, hZ _⟩
  · rw [if_neg hT2] at hT
    exact ⟨_, hT, hZ _⟩

theorem Tick_attack_lerp_height_witness :
    attackingController.IsAttacking = true ∧
    actorAt sampleWorld.AiActorsInMap attackingController.selectedAiIndex = some ⟨3, 4, 0⟩ ∧
    (¬ exactEngine.Distance attackingController.ActorLocation ⟨3, 4, 0⟩
        < attackingController.attackLerpingMinDistance) ∧
    ∃ s', Tick exactEngine sampleWorld (1 / 10) attackingController = some s' ∧
      s'.ActorLocation.Z = attackingController.startingLocation.Z :=
  ⟨rfl, sample_selected_enemy, sample_not_in_reach,
    Tick_attack_lerp_height exactEngine sampleWorld (1 / 10) attackingController ⟨3, 4, 0⟩ rfl
      sample_selected_enemy sample_not_in_reach⟩

/-! ## End of the attack -/

theorem toFloat_timer_sum :
    toFloat (11744051 / 16777216 + 13421773 / 134217728) = 13421773 / 16777216 := by
  unfold toFloat
  rw [roundBinary_eval 24 (-149) _ (-1) (-24) 13421773] <;> norm_num

theorem rounding_selected_enemy :
    actorAt roundingWorld.AiActorsInMap roundingController.selectedAiIndex = some ⟨3, 4, 0⟩ := by
  simp [actorAt, roundingWorld, sampleWorld, roundingController, attackingController,
    idleController]

theorem rounding_advancedTimer :
    advancedTimer roundingWorld roundingController = 13421773 / 16777216 := by
  have h : floatAdd (11744051 / 16777216) (13421773 / 134217728) = 13421773 / 16777216 := by
    unfold floatAdd
    rw [if_neg (by norm_num), if_neg (by norm_num), toFloat_timer_sum]
  exact h

theorem lunging_advancedTimer : advancedTimer quarterWorld lungingController = 1 / 2 := by
  have h : floatAdd (1 / 4) (1 / 4) = 1 / 2 := by
    unfold floatAdd
    rw [if_neg (by norm_num), if_neg (by norm_num)]
    norm_num
  exact h

/-- C6. While attacking a selected enemy, with a `float` timer sum in finite
range, `Tick` completes; afterwards `IsAttacking` is false exactly when the
enemy was within `attackLerpingMinDistance` of the player's location before
the tick or the `float` sum of the old `attackTimer` and the frame time (the
world's `DeltaTimeSeconds`) is at least `attackDuration`, and it is still true
otherwise.  In both cases `attackTimer` is that `float` sum, which is the old
timer plus the frame time whenever this sum is a `float`. -/
theorem Tick_attack_end (E : Engine) (w : World) (d : ℚ) (s : AThirdPersonController)
    (enemy : FVector)
    (hA : s.IsAttacking = true)
    (hE : actorAt w.AiActorsInMap s.selectedAiIndex = some enemy)
    (hF : FloatFinite (floatAdd s.attackTimer w.DeltaTimeSeconds)) :
    ∃ s', Tick E w d s = some s' ∧
      (s'.IsAttacking = false ↔
        (E.Distance s.ActorLocation enemy < s.attackLerpingMinDistance ∨
          floatAdd s.attackTimer w.DeltaTimeSeconds ≥ s.attackDuration)) ∧
      (s'.IsAttacking = true ↔
        ¬ (E.Distance s.ActorLocation enemy < s.attackLerpingMinDistance ∨
          floatAdd s.attackTimer w.DeltaTimeSeconds ≥ s.attackDuration)) ∧
      s'.attackTimer = floatAdd s.attackTimer w.DeltaTimeSeconds ∧
      (toFloat (s.attackTimer + w.DeltaTimeSeconds) = s.attackTimer + w.DeltaTimeSeconds →
        s'.attackTimer = s.attackTimer + w.DeltaTimeSeconds) := by
  have _ := hF
  have hS : s.selectedAiIndex ≠ -1 := selected_ne_neg_one _ _ _ hE
  have hT := Tick_attacking E w d s enemy hA hS hE
  have hx : ∀ t : ℚ, t = floatAdd s.attackTimer w.DeltaTimeSeconds →
      toFloat (s.attackTimer + w.DeltaTimeSeconds) = s.attackTimer + w.DeltaTimeSeconds →
      t = s.attackTimer + w.DeltaTimeSeconds := by
    intro t ht hr
    rw [ht]
    exact floatAdd_of_exact _ _ hr
  unfold advancedTimer at hT
  by_cases hD : E.Distance s.ActorLocation enemy < s.attackLerpingMinDistance
  · rw [if_pos hD] at hT
    exact ⟨_, hT, by simp [hD], by simp [hD], rfl, hx _ rfl⟩
  · rw [if_neg hD] at hT
    by_cases hT2 : floatAdd s.attackTimer w.DeltaTimeSeconds ≥ s.attackDuration
    · rw [if_pos hT2] at hT
      exact ⟨_, hT, by simp [hT2], by simp [hT2], rfl, hx _ rfl⟩
    · rw [if_neg hT2] at hT
      refine ⟨_, hT, ?_, ?_, rfl, hx _ rfl⟩
      · simp only [hA, hD, hT2, or_self]
        simp
      · simp only [hA, hD, hT2, or_self]
        simp

theorem lunging_selected_enemy :
    actorAt quarterWorld.AiActorsInMap lungingController.selectedAiIndex = some ⟨3, 4, 0⟩ := by
  simp [actorAt, quarterWorld, sampleWorld, lungingController, attackingController,
    idleController]

theorem lunging_timer_finite :
    FloatFinite (floatAdd lungingController.attackTimer quarterWorld.DeltaTimeSeconds) := by
  have h := lunging_advancedTimer
  unfold advancedTimer at h
  rw [h]
  norm_num [FloatFinite, maxFloat, abs_of_pos]

theorem Tick_attack_end_witness :
    lungingController.IsAttacking = true ∧
    actorAt quarterWorld.AiActorsInMap lungingController.selectedAiIndex = some ⟨3, 4, 0⟩ ∧
    FloatFinite (floatAdd lungingController.attackTimer quarterWorld.DeltaTimeSeconds) ∧
    ∃ s', Tick exactEngine quarterWorld (1 / 4) lungingController = some s' ∧
      (s'.IsAttacking = false ↔
        (exactEngine.Distance lungingController.ActorLocation ⟨3, 4, 0⟩
            < lungingController.attackLerpingMinDistance ∨
          floatAdd lungingController.attackTimer quarterWorld.DeltaTimeSeconds
            ≥ lungingController.attackDuration)) ∧
      (s'.IsAttacking = true ↔
        ¬ (exactEngine.Distance lungingController.ActorLocation ⟨3, 4, 0⟩
            < lungingController.attackLerpingMinDistance ∨
          floatAdd lungingController.attackTimer quarterWorld.DeltaTimeSeconds
            ≥ lungingController.attackDuration)) ∧
      s'.attackTimer = floatAdd lungingController.attackTimer quarterWorld.DeltaTimeSeconds ∧
      (toFloat (lungingController.attackTimer + quarterWorld.DeltaTimeSeconds)
          = lungingController.attackTimer + quarterWorld.DeltaTimeSeconds →
        s'.attackTimer = lungingController.attackTimer + quarterWorld.DeltaTimeSeconds) :=
  ⟨rfl, lunging_selected_enemy, lunging_timer_finite,
    Tick_attack_end exactEngine quarterWorld (1 / 4) lungingController ⟨3, 4, 0⟩ rfl
      lunging_selected_enemy lunging_timer_finite⟩

/-- C6, the claim as stated, evaluated on the code.  With `attackTimer = 0.7f`,
frame time `0.1f`, `attackDuration = 0.8f` and the enemy out of reach, the
exact sum of timer and frame time is below `attackDuration`, yet the `float`
sum is `0.8f`: `Tick` clears `IsAttacking`, and the new `attackTimer` is not
the old one plus the frame time. -/
theorem Tick_attack_end_rounded :
    roundingController.IsAttacking = true ∧
    actorAt roundingWorld.AiActorsInMap roundingController.selectedAiIndex = some ⟨3, 4, 0⟩ ∧
    ¬ (exactEngine.Distance roundingController.ActorLocation ⟨3, 4, 0⟩
          < roundingController.attackLerpingMinDistance ∨
        roundingController.attackTimer + roundingWorld.DeltaTimeSeconds
          ≥ roundingController.attackDuration) ∧
    ∃ s', Tick exactEngine roundingWorld (13421773 / 134217728) roundingController = some s' ∧
      s'.IsAttacking = false ∧
      s'.attackTimer ≠ roundingController.attackTimer + roundingWorld.DeltaTimeSeconds := by
  have hD : ¬ exactEngine.Distance roundingController.ActorLocation ⟨3, 4, 0⟩
      < roundingController.attackLerpingMinDistance := sample_not_in_reach
  have hT := Tick_attacking exactEngine roundingWorld (13421773 / 134217728) roundingController
    ⟨3, 4, 0⟩ rfl (selected_ne_neg_one _ _ _ rounding_selected_enemy) rounding_selected_enemy
  have hge : advancedTimer roundingWorld roundingController
      ≥ roundingController.attackDuration := by
    rw [rounding_advancedTimer]
    norm_num [roundingController]
  rw [if_neg hD, if_pos hge] at hT
  refine ⟨rfl, rounding_selected_enemy, ?_, _, hT, rfl, ?_⟩
  · rintro (h | h)
    · exact hD h
    · norm_num [roundingController, roundingWorld, attackingController, idleController,
        sampleWorld] at h
  · show advancedTimer roundingWorld roundingController ≠ _
    rw [rounding_advancedTimer]
    norm_num [roundingController, roundingWorld, attackingController, idleController,
      sampleWorld]

/-! ## Location during the attack -/

/-- C2. While attacking a selected enemy that is not yet within
`attackLerpingMinDistance`, with `attackDuration` other than `0` and all
intermediate `float` and `double` values in finite range, `Tick` completes and
places the player at the engine's `Lerp(startingLocation, goal, c)` computed in
`double`: each of `X` and `Y` is `start + c * (enemy - start)` with every
operation rounded, and `Z` is `startingLocation.Z`.  Here `c` is the curve at
the `float` quotient of the advanced timer (the `float` sum of the old
`attackTimer` and the world's `DeltaTimeSeconds`) by `attackDuration`.  A curve
value of `0` gives `startingLocation`; a curve value of `1` gives the enemy's
`X` (`Y`) when the enemy's coordinate and its difference from the start are
`double` values in finite range. -/
theorem Tick_attack_lerp (E : Engine) (w : World) (d : ℚ) (s : AThirdPersonController)
    (enemy : FVector)
    (hA : s.IsAttacking = true)
    (hE : actorAt w.AiActorsInMap s.selectedAiIndex = some enemy)
    (hD : ¬ E.Distance s.ActorLocation enemy < s.attackLerpingMinDistance)
    (hDur : s.attackDuration ≠ 0)
    (hT : FloatFinite (floatAdd s.attackTimer w.DeltaTimeSeconds))
    (hQ : FloatFinite (floatDiv (floatAdd s.attackTimer w.DeltaTimeSeconds) s.attackDuration))
    (hX : LerpFinite s.startingLocation.X enemy.X (lerpAmount E w s))
    (hY : LerpFinite s.startingLocation.Y enemy.Y (lerpAmount E w s)) :
    ∃ s', Tick E w d s = some s' ∧
      lerpAmount E w s = E.powerCurveOnHit
        (floatDiv (floatAdd s.attackTimer w.DeltaTimeSeconds) s.attackDuration) ∧
      s'.ActorLocation =
        ⟨doubleAdd s.startingLocation.X
            (doubleMul (doubleSub enemy.X s.startingLocation.X) (lerpAmount E w s)),
         doubleAdd s.startingLocation.Y
            (doubleMul (doubleSub enemy.Y s.startingLocation.Y) (lerpAmount E w s)),
         s.startingLocation.Z⟩ ∧
      (lerpAmount E w s = 0 → s'.ActorLocation = s.startingLocation) ∧
      (lerpAmount E w s = 1 →
        (toDouble (enemy.X - s.startingLocation.X) = enemy.X - s.startingLocation.X →
          toDouble enemy.X = enemy.X → s'.ActorLocation.X = enemy.X) ∧
        (toDouble (enemy.Y - s.startingLocation.Y) = enemy.Y - s.startingLocation.Y →
          toDouble enemy.Y = enemy.Y → s'.ActorLocation.Y = enemy.Y)) := by
  have _ := hT
  have _ := hX
  have _ := hY
  have hS : s.selectedAiIndex ≠ -1 := selected_ne_neg_one _ _ _ hE
  have hc : lerpAmount E w s = E.powerCurveOnHit
      (floatDiv (floatAdd s.attackTimer w.DeltaTimeSeconds) s.attackDuration) := by
    unfold lerpAmount curveAtQuotient advancedTimer
    rw [if_pos ⟨hDur, hQ⟩]
  have hL : Lerp s.startingLocation { enemy with Z := s.startingLocation.Z } (lerpAmount E w s)
      = ⟨lerpComponent s.startingLocation.X enemy.X (lerpAmount E w s),
         lerpComponent s.startingLocation.Y enemy.Y (lerpAmount E w s),
         s.startingLocation.Z⟩ := by
    rw [Lerp_components]
    simp only [lerpComponent_self]
  have hT := Tick_attacking E w d s enemy hA hS hE
  rw [if_neg hD] at hT
  have key : ∀ s' : AThirdPersonController,
      s'.ActorLocation = Lerp s.startingLocation { enemy with Z := s.startingLocation.Z }
        (lerpAmount E w s) →
      s'.ActorLocation =
        ⟨doubleAdd s.startingLocation.X
            (doubleMul (doubleSub enemy.X s.startingLocation.X) (lerpAmount E w s)),
         doubleAdd s.startingLocation.Y
            (doubleMul (doubleSub enemy.Y s.startingLocation.Y) (lerpAmount E w s)),
         s.startingLocation.Z⟩ ∧
      (lerpAmount E w s = 0 → s'.ActorLocation = s.startingLocation) ∧
      (lerpAmount E w s = 1 →
        (toDouble (enemy.X - s.startingLocation.X) = enemy.X - s.startingLocation.X →
          toDouble enemy.X = enemy.X → s'.ActorLocation.X = enemy.X) ∧
        (toDouble (enemy.Y - s.startingLocation.Y) = enemy.Y - s.startingLocation.Y →
          toDouble enemy.Y = enemy.Y → s'.ActorLocation.Y = enemy.Y)) := by
    intro s' h
    rw [hL] at h
    refine ⟨h, ?_, ?_⟩
    · intro h0
      rw [h, h0, lerpComponent_zero, lerpComponent_zero]
    · intro h1
      rw [h, h1]
      exact ⟨fun hd hb => lerpComponent_one _ _ hd hb, fun hd hb => lerpComponent_one _ _ hd hb⟩
  by_cases hT2 : advancedTimer w s ≥ s.attackDuration
  · rw [if_pos hT2] at hT
    exact ⟨_, hT, hc, key _ rfl⟩
  · rw [if_neg hT2] at hT
    exact ⟨_, hT, hc, key _ rfl⟩

theorem lunging_not_in_reach :
    ¬ exactEngine.Distance lungingController.ActorLocation ⟨3, 4, 0⟩
        < lungingController.attackLerpingMinDistance := sample_not_in_reach

theorem floatDiv_half_one : floatDiv (1 / 2) 1 = 1 / 2 := by
  unfold floatDiv
  rw [div_one, toFloat_half]

theorem floatDiv_one_one : floatDiv 1 1 = 1 := by
  unfold floatDiv
  rw [div_one, toFloat_one]

theorem floatFinite_half : FloatFinite (1 / 2) := by
  norm_num [FloatFinite, maxFloat, abs_of_pos]

theorem floatFinite_one : FloatFinite 1 := by
  norm_num [FloatFinite, maxFloat]

theorem lunging_lerpAmount : lerpAmount exactEngine quarterWorld lungingController = 1 / 2 := by
  unfold lerpAmount
  rw [lunging_advancedTimer]
  show curveAtQuotient exactEngine (1 / 2) 1 = 1 / 2
  unfold curveAtQuotient
  rw [floatDiv_half_one, if_pos ⟨by norm_num, floatFinite_half⟩]
  rfl

theorem toDouble_three_halves : toDouble (3 / 2) = 3 / 2 := by
  unfold toDouble
  rw [roundBinary_eval 53 (-1074) _ 0 (-52) (3 * 2 ^ 51)] <;> norm_num

theorem toDouble_two : toDouble 2 = 2 := by
  unfold toDouble
  rw [roundBinary_eval 53 (-1074) _ 1 (-51) (2 ^ 52)] <;> norm_num

theorem lunging_lerp_finite_X :
    LerpFinite lungingController.startingLocation.X 3
      (lerpAmount exactEngine quarterWorld lungingController) := by
  rw [lunging_lerpAmount]
  show LerpFinite 0 3 (1 / 2)
  have h : doubleMul 3 (1 / 2) = 3 / 2 := by
    unfold doubleMul
    norm_num [toDouble_three_halves]
  unfold LerpFinite lerpComponent
  rw [doubleSub_zero, h, doubleAdd_zero_left]
  norm_num [DoubleFinite, maxDouble, abs_of_pos]

theorem lunging_lerp_finite_Y :
    LerpFinite lungingController.startingLocation.Y 4
      (lerpAmount exactEngine quarterWorld lungingController) := by
  rw [lunging_lerpAmount]
  show LerpFinite 0 4 (1 / 2)
  have h : doubleMul 4 (1 / 2) = 2 := by
    unfold doubleMul
    norm_num [toDouble_two]
  unfold LerpFinite lerpComponent
  rw [doubleSub_zero, h, doubleAdd_zero_left]
  norm_num [DoubleFinite, maxDouble, abs_of_pos]

theorem lunging_quotient_finite :
    FloatFinite (floatDiv
      (floatAdd lungingController.attackTimer quarterWorld.DeltaTimeSeconds)
      lungingController.attackDuration) := by
  have h := lunging_advancedTimer
  unfold advancedTimer at h
  rw [h]
  show FloatFinite (floatDiv (1 / 2) 1)
  rw [floatDiv_half_one]
  exact floatFinite_half

theorem Tick_attack_lerp_witness :
    lungingController.IsAttacking = true ∧
    actorAt quarterWorld.AiActorsInMap lungingController.selectedAiIndex = some ⟨3, 4, 0⟩ ∧
    (¬ exactEngine.Distance lungingController.ActorLocation ⟨3, 4, 0⟩
        < lungingController.attackLerpingMinDistance) ∧
    lungingController.attackDuration ≠ 0 ∧
    FloatFinite (floatAdd lungingController.attackTimer quarterWorld.DeltaTimeSeconds) ∧
    FloatFinite (floatDiv
      (floatAdd lungingController.attackTimer quarterWorld.DeltaTimeSeconds)
      lungingController.attackDuration) ∧
    LerpFinite lungingController.startingLocation.X 3
      (lerpAmount exactEngine quarterWorld lungingController) ∧
    LerpFinite lungingController.startingLocation.Y 4
      (lerpAmount exactEngine quarterWorld lungingController) ∧
    ∃ s', Tick exactEngine quarterWorld (1 / 4) lungingController = some s' ∧
      lerpAmount exactEngine quarterWorld lungingController = exactEngine.powerCurveOnHit
        (floatDiv (floatAdd lungingController.attackTimer quarterWorld.DeltaTimeSeconds)
          lungingController.attackDuration) ∧
      s'.ActorLocation =
        ⟨doubleAdd lungingController.startingLocation.X
            (doubleMul (doubleSub 3 lungingController.startingLocation.X)
              (lerpAmount exactEngine quarterWorld lungingController)),
         doubleAdd lungingController.startingLocation.Y
            (doubleMul (doubleSub 4 lungingController.startingLocation.Y)
              (lerpAmount exactEngine quarterWorld lungingController)),
         lungingController.startingLocation.Z⟩ ∧
      (lerpAmount exactEngine quarterWorld lungingController = 0 →
        s'.ActorLocation = lungingController.startingLocation) ∧
      (lerpAmount exactEngine quarterWorld lungingController = 1 →
        (toDouble (3 - lungingController.startingLocation.X)
            = 3 - lungingController.startingLocation.X →
          toDouble 3 = 3 → s'.ActorLocation.X = 3) ∧
        (toDouble (4 - lungingController.startingLocation.Y)
            = 4 - lungingController.startingLocation.Y →
          toDouble 4 = 4 → s'.ActorLocation.Y = 4)) :=
  have hDur : lungingController.attackDuration ≠ 0 := by
    norm_num [lungingController, attackingController, idleController]
  ⟨rfl, lunging_selected_enemy, lunging_not_in_reach, hDur, lunging_timer_finite,
    lunging_quotient_finite, lunging_lerp_finite_X, lunging_lerp_finite_Y,
    Tick_attack_lerp exactEngine quarterWorld (1 / 4) lungingController ⟨3, 4, 0⟩ rfl
      lunging_selected_enemy lunging_not_in_reach hDur lunging_timer_finite
      lunging_quotient_finite lunging_lerp_finite_X lunging_lerp_finite_Y⟩

/-! ### Rounding in the lerp -/

theorem far_selected_enemy :
    actorAt nearWorld.AiActorsInMap farController.selectedAiIndex
      = some ⟨tenthDouble, 0, 0⟩ := by
  simp [actorAt, nearWorld, sampleWorld, farController, attackingController, idleController]

theorem far_distance :
    exactEngine.Distance farController.ActorLocation ⟨tenthDouble, 0, 0⟩
      = 100 - tenthDouble := by
  show exactSize _ = _
  apply exactSize_eq _ _ (by norm_num [tenthDouble])
  simp only [exactSizeSquared, farController]
  ring

theorem far_advancedTimer : advancedTimer nearWorld farController = 1 := by
  have h : floatAdd (1 / 2) (1 / 2) = 1 := by
    unfold floatAdd
    rw [if_neg (by norm_num), if_neg (by norm_num)]
    norm_num
  exact h

theorem far_lerpAmount : lerpAmount exactEngine nearWorld farController = 1 := by
  unfold lerpAmount
  rw [far_advancedTimer]
  show curveAtQuotient exactEngine 1 1 = 1
  unfold curveAtQuotient
  rw [floatDiv_one_one, if_pos ⟨by norm_num, floatFinite_one⟩]
  rfl

theorem far_difference :
    doubleSub tenthDouble 100 = -(7029837543348634 / 70368744177664) := by
  unfold doubleSub doubleAdd
  rw [if_neg (by norm_num), if_neg (by norm_num [tenthDouble])]
  unfold toDouble
  rw [roundBinary_eval_neg 53 (-1074) _ 6 (-46) (-7029837543348634)] <;>
    norm_num [tenthDouble]

theorem far_product :
    doubleMul (-(7029837543348634 / 70368744177664)) 1
      = -(7029837543348634 / 70368744177664) := by
  unfold doubleMul toDouble
  rw [roundBinary_eval_neg 53 (-1074) _ 6 (-46) (-7029837543348634)] <;> norm_num

theorem far_sum :
    doubleAdd 100 (-(7029837543348634 / 70368744177664))
      = 7205759403792384 / 72057594037927936 := by
  unfold doubleAdd
  rw [if_neg (by norm_num), if_neg (by norm_num)]
  unfold toDouble
  rw [roundBinary_eval 53 (-1074) _ (-4) (-56) 7205759403792384] <;> norm_num

/-- C2, the claim as stated, evaluated on the code.  The player started at
`X = 100`, the enemy stands at `X = 0.1` and the curve value is `1`: the
difference `0.1 - 100` is rounded, and `Tick` puts the player at
`X = 0.09999999999999432`, not at the enemy's `X`. -/
theorem Tick_attack_lerp_rounded :
    farController.IsAttacking = true ∧
    actorAt nearWorld.AiActorsInMap farController.selectedAiIndex
      = some ⟨tenthDouble, 0, 0⟩ ∧
    (¬ exactEngine.Distance farController.ActorLocation ⟨tenthDouble, 0, 0⟩
        < farController.attackLerpingMinDistance) ∧
    exactEngine.powerCurveOnHit
      ((farController.attackTimer + nearWorld.DeltaTimeSeconds) / farController.attackDuration)
      = 1 ∧
    ∃ s', Tick exactEngine nearWorld (1 / 2) farController = some s' ∧
      s'.ActorLocation.X = 7205759403792384 / 72057594037927936 ∧
      s'.ActorLocation.X ≠ tenthDouble := by
  have hD : ¬ exactEngine.Distance farController.ActorLocation ⟨tenthDouble, 0, 0⟩
      < farController.attackLerpingMinDistance := by
    rw [far_distance]
    norm_num [tenthDouble, farController, attackingController, idleController]
  have hT := Tick_attacking exactEngine nearWorld (1 / 2) farController
    ⟨tenthDouble, 0, 0⟩ rfl (selected_ne_neg_one _ _ _ far_selected_enemy) far_selected_enemy
  have hX : (Lerp farController.startingLocation
      { (⟨tenthDouble, 0, 0⟩ : FVector) with Z := farController.startingLocation.Z }
      (lerpAmount exactEngine nearWorld farController)).X
        = 7205759403792384 / 72057594037927936 := by
    rw [far_lerpAmount, Lerp_components]
    show lerpComponent 100 tenthDouble 1 = _
    unfold lerpComponent
    rw [far_difference, far_product, far_sum]
  have hc : exactEngine.powerCurveOnHit
      ((farController.attackTimer + nearWorld.DeltaTimeSeconds) / farController.attackDuration)
      = 1 := by
    show (farController.attackTimer + nearWorld.DeltaTimeSeconds) / farController.attackDuration
      = 1
    norm_num [farController, nearWorld, attackingController, idleController]
  have hne : (7205759403792384 / 72057594037927936 : ℚ) ≠ tenthDouble := by
    norm_num [tenthDouble]
  rw [if_neg hD] at hT
  by_cases hT2 : advancedTimer nearWorld farController ≥ farController.attackDuration
  · rw [if_pos hT2] at hT
    exact ⟨rfl, far_selected_enemy, hD, hc, _, hT, hX, by rw [hX]; exact hne⟩
  · rw [if_neg hT2] at hT
    exact ⟨rfl, far_selected_enemy, hD, hc, _, hT, hX, by rw [hX]; exact hne⟩

/-! ## Target selection -/

/-- Loop invariant of the selection loop, in terms of the remaining enemies:
either nothing beat `previousDot`, or the result is the first remaining enemy
whose score is maximal among the remaining ones and exceeds `previousDot`. -/
theorem selectLoop_spec (E : Engine) (dir loc : FVector) (rest : List FVector) :
    ∀ (i : Nat) (c : Int) (p : ℚ),
      (selectLoop E dir loc rest i (c, p) = (c, p) ∧
        ∀ e ∈ rest, toFloat (dir.Dot (E.GetSafeNormal (e.sub loc))) ≤ p) ∨
      (∃ k e, rest[k]? = some e ∧
        selectLoop E dir loc rest i (c, p)
          = (((i + k : Nat) : Int), toFloat (dir.Dot (E.GetSafeNormal (e.sub loc)))) ∧
        p < toFloat (dir.Dot (E.GetSafeNormal (e.sub loc))) ∧
        (∀ j ej, j < k → rest[j]? = some ej →
          toFloat (dir.Dot (E.GetSafeNormal (ej.sub loc))) < toFloat (dir.Dot (E.GetSafeNormal (e.sub loc)))) ∧
        (∀ ej ∈ rest,
          toFloat (dir.Dot (E.GetSafeNormal (ej.sub loc))) ≤ toFloat (dir.Dot (E.GetSafeNormal (e.sub loc))))) := by
  induction rest with
  | nil =>
    intro i c p
    left
    exact ⟨rfl, by simp⟩
  | cons x xs ih =>
    intro i c p
    by_cases hx : toFloat (dir.Dot (E.GetSafeNormal (x.sub loc))) > p
    · have hstep : selectLoop E dir loc (x :: xs) i (c, p)
          = selectLoop E dir loc xs (i + 1) ((i : Int), toFloat (dir.Dot (E.GetSafeNormal (x.sub loc)))) := by
        simp only [selectLoop, hx, if_true]
      rw [hstep]
      right
      rcases ih (i + 1) (i : Int) (toFloat (dir.Dot (E.GetSafeNormal (x.sub loc)))) with
        ⟨hr, hall⟩ | ⟨k, e, hk, hr, hlt, hbefore, hall⟩
      · refine ⟨0, x, by simp, by simpa using hr, hx, ?_, ?_⟩
        · intro j ej hj
          omega
        · intro ej hej
          rcases List.mem_cons.mp hej with h | h
          · rw [h]
          · exact hall ej h
      · refine ⟨k + 1, e, by simpa using hk, ?_, lt_trans hx hlt, ?_, ?_⟩
        · rw [hr]
          have : i + 1 + k = i + (k + 1) := by omega
          rw [this]
        · intro j ej hj hje
          cases j with
          | zero =>
            simp only [List.getElem?_cons_zero, Option.some.injEq] at hje
            rw [← hje]
            exact hlt
          | succ j =>
            simp only [List.getElem?_cons_succ] at hje
            exact hbefore j ej (by omega) hje
        · intro ej hej
          rcases List.mem_cons.mp hej with h | h
          · rw [h]
            exact hlt.le
          · exact hall ej h
    · have hstep : selectLoop E dir loc (x :: xs) i (c, p)
          = selectLoop E dir loc xs (i + 1) (c, p) := by
        simp only [selectLoop, hx, if_false]
      rw [hstep]
      have hxp : toFloat (dir.Dot (E.GetSafeNormal (x.sub loc))) ≤ p := not_lt.mp hx
      rcases ih (i + 1) c p with ⟨hr, hall⟩ | ⟨k, e, hk, hr, hlt, hbefore, hall⟩
      · left
        refine ⟨hr, ?_⟩
        intro ej hej
        rcases List.mem_cons.mp hej with h | h
        · rw [h]
          exact hxp
        · exact hall ej h
      · right
        refine ⟨k + 1, e, by simpa using hk, ?_, hlt, ?_, ?_⟩
        · rw [hr]
          have : i + 1 + k = i + (k + 1) := by omega
          rw [this]
        · intro j ej hj hje
          cases j with
          | zero =>
            simp only [List.getElem?_cons_zero, Option.some.injEq] at hje
            rw [← hje]
            exact lt_of_le_of_lt hxp hlt
          | succ j =>
            simp only [List.getElem?_cons_succ] at hje
            exact hbefore j ej (by omega) hje
        · intro ej hej
          rcases List.mem_cons.mp hej with h | h
          · rw [h]
            exact (lt_of_le_of_lt hxp hlt).le
          · exact hall ej h

/-- The selection branch of `Tick` with input outside the dead zone, spelled out. -/
theorem Tick_selecting (E : Engine) (w : World) (d : ℚ) (s : AThirdPersonController)
    (hB : s.IsAttacking = false ∨ s.selectedAiIndex = -1)
    (hI : inputDeadZone ≤ E.Length s.CurrentInputDirection) :
    Tick E w d s =
      match actorAt w.AiActorsInMap
          (selectLoop E (worldInputDirection E w s) s.ActorLocation w.AiActorsInMap 0 (0, -2)).1 with
      | none => none
      | some _ => some { s with
          cameraForwardDirection := E.Normalize { w.cameraForward with Z := 0 }
          cameraRightDirection := E.Normalize { w.cameraRight with Z := 0 }
          selectedAiIndex :=
            (selectLoop E (worldInputDirection E w s) s.ActorLocation
              w.AiActorsInMap 0 (0, -2)).1 } := by
  have hc : ¬ (s.IsAttacking = true ∧ s.selectedAiIndex ≠ -1) := by
    rintro ⟨h1, h2⟩
    rcases hB with h | h
    · rw [h] at h1
      exact Bool.noConfusion h1
    · exact h2 h
  unfold Tick SuperTick
  simp only [hc, if_false, not_lt.mpr hI]
  rfl

/-- What the selection branch of `Tick` selects when some enemy's `float`
score exceeds the initial `previousDot` of `-2`. -/
theorem Tick_selecting_spec (E : Engine) (w : World) (d : ℚ) (s : AThirdPersonController)
    (hS : ∃ e ∈ w.AiActorsInMap, -2 < floatScore E w s e)
    (hB : s.IsAttacking = false ∨ s.selectedAiIndex = -1)
    (hI : inputDeadZone ≤ E.Length s.CurrentInputDirection) :
    ∃ (s' : AThirdPersonController) (k : Nat) (enemy : FVector), Tick E w d s = some s' ∧
      s'.selectedAiIndex = (k : Int) ∧
      k < w.AiActorsInMap.length ∧
      w.AiActorsInMap[k]? = some enemy ∧
      (∀ (j : Nat) (ej : FVector), w.AiActorsInMap[j]? = some ej →
        floatScore E w s ej ≤ floatScore E w s enemy) ∧
      (∀ (j : Nat) (ej : FVector), w.AiActorsInMap[j]? = some ej →
        floatScore E w s ej = floatScore E w s enemy → k ≤ j) := by
  have hT := Tick_selecting E w d s hB hI
  rcases selectLoop_spec E (worldInputDirection E w s) s.ActorLocation w.AiActorsInMap 0 0 (-2) with
    ⟨_, hall⟩ | ⟨k, e, hk, hr, _, hbefore, hall⟩
  · exfalso
    rcases hS with ⟨x, hx, hgt⟩
    have h1 := hall x hx
    unfold floatScore targetScore at hgt
    linarith
  · rw [hr] at hT
    simp only [Nat.zero_add, actorAt_natCast, hk] at hT
    refine ⟨_, k, e, hT, rfl, ?_, hk, ?_, ?_⟩
    · exact (List.getElem?_eq_some_iff.mp hk).1
    · intro j ej hj
      exact hall ej (List.getElem?_mem hj)
    · intro j ej hj heq
      by_contra hlt
      have := hbefore j ej (not_le.mp hlt) hj
      unfold floatScore targetScore at heq
      linarith

/-- C1. In the selection branch of `Tick`, with a non-empty enemy list whose
`float` scores exceed `-2` (the code's "dot product will always give [-1, 1]")
and an input direction at least as long as the `float` literal `0.1f`, `Tick`
completes and the resulting `selectedAiIndex` is an index `k` of the list such
that no enemy has a strictly greater `float` score than enemy `k` and every
enemy with an equal `float` score has index at least `k`.  The score of an
enemy is the dot product of the camera-relative input direction (camera axes
flattened to `Z = 0` and normalised, combined with the input vector and
normalised) with the normalised direction from the player to the enemy,
narrowed from `double` to `float`. -/
theorem Tick_selects_first_best (E : Engine) (w : World) (d : ℚ) (s : AThirdPersonController)
    (hS : ∀ e ∈ w.AiActorsInMap, -2 < floatScore E w s e)
    (hB : s.IsAttacking = false ∨ s.selectedAiIndex = -1)
    (hne : w.AiActorsInMap ≠ [])
    (hI : inputDeadZone ≤ E.Length s.CurrentInputDirection) :
    ∃ (s' : AThirdPersonController) (k : Nat) (enemy : FVector), Tick E w d s = some s' ∧
      s'.selectedAiIndex = (k : Int) ∧
      k < w.AiActorsInMap.length ∧
      w.AiActorsInMap[k]? = some enemy ∧
      (∀ (j : Nat) (ej : FVector), w.AiActorsInMap[j]? = some ej →
        floatScore E w s ej ≤ floatScore E w s enemy) ∧
      (∀ (j : Nat) (ej : FVector), w.AiActorsInMap[j]? = some ej →
        floatScore E w s ej = floatScore E w s enemy → k ≤ j) := by
  apply Tick_selecting_spec E w d s _ hB hI
  cases hl : w.AiActorsInMap with
  | nil => exact absurd hl hne
  | cons x xs =>
    refine ⟨x, List.mem_cons_self x xs, hS x ?_⟩
    rw [hl]
    exact List.mem_cons_self x xs

/-- The dead-zone branch of `Tick`, spelled out: with no input the camera
fields are refreshed and `selectedAiIndex` is set to `0`. -/
theorem Tick_no_input (E : Engine) (w : World) (d : ℚ) (s : AThirdPersonController)
    (hB : s.IsAttacking = false)
    (hI : E.Length s.CurrentInputDirection < inputDeadZone) :
    Tick E w d s = some { s with
      cameraForwardDirection := E.Normalize { w.cameraForward with Z := 0 }
      cameraRightDirection := E.Normalize { w.cameraRight with Z := 0 }
      selectedAiIndex := 0 } := by
  unfold Tick SuperTick
  simp only [hB, Bool.false_eq_true, false_and, if_false, hI, if_true]

/-! ### Evaluation of the scores -/

theorem Dot_unitX (v : FVector) : (FVector.mk 1 0 0).Dot v = toDouble v.X := by
  simp [FVector.Dot, doubleMul]

theorem sub_origin (v : FVector) : v.sub ⟨0, 0, 0⟩ = v := by
  simp [FVector.sub]

theorem exactNormal_alongX (x : ℚ) (hx : 0 < x) : exactNormal ⟨x, 0, 0⟩ = ⟨1, 0, 0⟩ := by
  rw [exactNormal_eq _ x hx (by simp [exactSizeSquared])]
  simp [hx.ne']

theorem exactNormal_alongY (y : ℚ) (hy : 0 < y) : exactNormal ⟨0, y, 0⟩ = ⟨0, 1, 0⟩ := by
  rw [exactNormal_eq _ y hy (by simp [exactSizeSquared])]
  simp [hy.ne']

theorem toDouble_tenthDouble : toDouble tenthDouble = tenthDouble := by
  unfold toDouble
  rw [roundBinary_eval 53 (-1074) _ (-4) (-56) 7205759403792794] <;> norm_num [tenthDouble]

theorem toDouble_belowOne : toDouble belowOne = belowOne := by
  unfold toDouble
  rw [roundBinary_eval 53 (-1074) _ (-1) (-53) 9007199254740991] <;> norm_num [belowOne]

theorem toFloat_belowOne : toFloat belowOne = 1 := by
  unfold toFloat
  rw [roundBinary_eval 24 (-149) _ (-1) (-24) 16777216] <;> norm_num [belowOne]

theorem squareSum_unitX : squareSum ⟨1, 0, 0⟩ = 1 := by
  simp [squareSum, doubleMul]

theorem squareSum_nearUnit : squareSum ⟨belowOne, 1 / 67108864, 0⟩ = 1 := by
  have h1 : doubleMul belowOne belowOne = 9007199254740990 / 9007199254740992 := by
    unfold doubleMul toDouble
    rw [roundBinary_eval 53 (-1074) _ (-1) (-53) 9007199254740990] <;> norm_num [belowOne]
  have h2 : doubleMul (1 / 67108864) (1 / 67108864) = 1 / 4503599627370496 := by
    unfold doubleMul toDouble
    rw [roundBinary_eval 53 (-1074) _ (-52) (-104) 4503599627370496] <;> norm_num
  have h3 : doubleAdd (9007199254740990 / 9007199254740992) (1 / 4503599627370496) = 1 := by
    unfold doubleAdd
    rw [if_neg (by norm_num), if_neg (by norm_num)]
    norm_num
  unfold squareSum
  rw [h1, h2, h3]
  simp

/-- With the stick pushed forward and the camera looking along `X`, the input
direction in the world is the `X` axis. -/
theorem steering_direction (E : Engine) (w : World) (hN : E.Normalize = exactNormal)
    (hf : w.cameraForward = ⟨1, 0, 0⟩) (hr : w.cameraRight = ⟨0, 1, 0⟩) :
    worldInputDirection E w steeringController = ⟨1, 0, 0⟩ := by
  unfold worldInputDirection
  rw [hN, hf, hr]
  have h1 : exactNormal { (⟨1, 0, 0⟩ : FVector) with Z := 0 } = ⟨1, 0, 0⟩ :=
    exactNormal_alongX 1 (by norm_num)
  have h2 : exactNormal { (⟨0, 1, 0⟩ : FVector) with Z := 0 } = ⟨0, 1, 0⟩ :=
    exactNormal_alongY 1 (by norm_num)
  rw [h1, h2]
  have h3 : ((⟨1, 0, 0⟩ : FVector).scale steeringController.CurrentInputDirection.Y).add
      ((⟨0, 1, 0⟩ : FVector).scale steeringController.CurrentInputDirection.X) = ⟨1, 0, 0⟩ := by
    simp [FVector.scale, FVector.add, steeringController, idleController, doubleMul]
  rw [h3]
  exact exactNormal_alongX 1 (by norm_num)

/-- The same with the stick pushed forward by only `0.1`. -/
theorem nudging_direction :
    worldInputDirection exactEngine sideWorld nudgingController = ⟨1, 0, 0⟩ := by
  unfold worldInputDirection
  show exactNormal (((exactNormal { (⟨1, 0, 0⟩ : FVector) with Z := 0 }).scale tenthDouble).add
    ((exactNormal { (⟨0, 1, 0⟩ : FVector) with Z := 0 }).scale 0)) = _
  have h1 : exactNormal { (⟨1, 0, 0⟩ : FVector) with Z := 0 } = ⟨1, 0, 0⟩ :=
    exactNormal_alongX 1 (by norm_num)
  have h2 : exactNormal { (⟨0, 1, 0⟩ : FVector) with Z := 0 } = ⟨0, 1, 0⟩ :=
    exactNormal_alongY 1 (by norm_num)
  rw [h1, h2]
  have h3 : ((⟨1, 0, 0⟩ : FVector).scale tenthDouble).add ((⟨0, 1, 0⟩ : FVector).scale 0)
      = ⟨tenthDouble, 0, 0⟩ := by
    simp [FVector.scale, FVector.add, doubleMul, toDouble_tenthDouble]
  rw [h3]
  exact exactNormal_alongX _ (by norm_num [tenthDouble])

theorem exactEngine_length_forward :
    exactEngine.Length steeringController.CurrentInputDirection = 1 := by
  show exactSize _ = 1
  apply exactSize_eq _ 1 (by norm_num)
  norm_num [exactSizeSquared, steeringController, idleController]

theorem exactEngine_length_nudge :
    exactEngine.Length nudgingController.CurrentInputDirection = tenthDouble := by
  show exactSize _ = _
  apply exactSize_eq _ _ (by norm_num [tenthDouble])
  simp [exactSizeSquared, nudgingController]

theorem axis_score_ahead :
    targetScore exactEngine axisWorld steeringController ⟨5, 0, 0⟩ = 1 := by
  unfold targetScore
  rw [steering_direction exactEngine axisWorld rfl rfl rfl, Dot_unitX]
  show toDouble (exactNormal ((⟨5, 0, 0⟩ : FVector).sub ⟨0, 0, 0⟩)).X = 1
  rw [sub_origin, exactNormal_alongX 5 (by norm_num)]
  exact toDouble_one

theorem axis_score_right :
    targetScore exactEngine axisWorld steeringController ⟨0, 5, 0⟩ = 0 := by
  unfold targetScore
  rw [steering_direction exactEngine axisWorld rfl rfl rfl, Dot_unitX]
  show toDouble (exactNormal ((⟨0, 5, 0⟩ : FVector).sub ⟨0, 0, 0⟩)).X = 0
  rw [sub_origin, exactNormal_alongY 5 (by norm_num)]
  exact toDouble_zero

theorem side_score_right :
    targetScore exactEngine sideWorld nudgingController ⟨0, 5, 0⟩ = 0 := by
  unfold targetScore
  rw [nudging_direction, Dot_unitX]
  show toDouble (exactNormal ((⟨0, 5, 0⟩ : FVector).sub ⟨0, 0, 0⟩)).X = 0
  rw [sub_origin, exactNormal_alongY 5 (by norm_num)]
  exact toDouble_zero

theorem side_score_ahead :
    targetScore exactEngine sideWorld nudgingController ⟨5, 0, 0⟩ = 1 := by
  unfold targetScore
  rw [nudging_direction, Dot_unitX]
  show toDouble (exactNormal ((⟨5, 0, 0⟩ : FVector).sub ⟨0, 0, 0⟩)).X = 1
  rw [sub_origin, exactNormal_alongX 5 (by norm_num)]
  exact toDouble_one

theorem nearTie_score_first :
    targetScore unitAwareEngine nearTieWorld steeringController ⟨belowOne, 1 / 67108864, 0⟩
      = belowOne := by
  unfold targetScore
  rw [steering_direction unitAwareEngine nearTieWorld rfl rfl rfl, Dot_unitX]
  show toDouble (if squareSum ((⟨belowOne, 1 / 67108864, 0⟩ : FVector).sub ⟨0, 0, 0⟩) = 1
    then (⟨belowOne, 1 / 67108864, 0⟩ : FVector).sub ⟨0, 0, 0⟩
    else exactNormal ((⟨belowOne, 1 / 67108864, 0⟩ : FVector).sub ⟨0, 0, 0⟩)).X = belowOne
  rw [sub_origin, if_pos squareSum_nearUnit]
  exact toDouble_belowOne

theorem nearTie_score_second :
    targetScore unitAwareEngine nearTieWorld steeringController ⟨1, 0, 0⟩ = 1 := by
  unfold targetScore
  rw [steering_direction unitAwareEngine nearTieWorld rfl rfl rfl, Dot_unitX]
  show toDouble (if squareSum ((⟨1, 0, 0⟩ : FVector).sub ⟨0, 0, 0⟩) = 1
    then (⟨1, 0, 0⟩ : FVector).sub ⟨0, 0, 0⟩
    else exactNormal ((⟨1, 0, 0⟩ : FVector).sub ⟨0, 0, 0⟩)).X = 1
  rw [sub_origin, if_pos squareSum_unitX]
  exact toDouble_one

theorem Tick_selects_first_best_witness :
    (∀ e ∈ axisWorld.AiActorsInMap, -2 < floatScore exactEngine axisWorld steeringController e) ∧
    (steeringController.IsAttacking = false ∨ steeringController.selectedAiIndex = -1) ∧
    axisWorld.AiActorsInMap ≠ [] ∧
    inputDeadZone ≤ exactEngine.Length steeringController.CurrentInputDirection ∧
    ∃ (s' : AThirdPersonController) (k : Nat) (enemy : FVector),
      Tick exactEngine axisWorld (1 / 10) steeringController = some s' ∧
      s'.selectedAiIndex = (k : Int) ∧
      k < axisWorld.AiActorsInMap.length ∧
      axisWorld.AiActorsInMap[k]? = some enemy ∧
      (∀ (j : Nat) (ej : FVector), axisWorld.AiActorsInMap[j]? = some ej →
        floatScore exactEngine axisWorld steeringController ej
          ≤ floatScore exactEngine axisWorld steeringController enemy) ∧
      (∀ (j : Nat) (ej : FVector), axisWorld.AiActorsInMap[j]? = some ej →
        floatScore exactEngine axisWorld steeringController ej
          = floatScore exactEngine axisWorld steeringController enemy → k ≤ j) :=
  have hS : ∀ e ∈ axisWorld.AiActorsInMap,
      -2 < floatScore exactEngine axisWorld steeringController e := by
    intro e he
    have he2 : e = ⟨5, 0, 0⟩ ∨ e = ⟨0, 5, 0⟩ := by
      simpa [axisWorld, sampleWorld] using he
    rcases he2 with h | h
    · rw [h, floatScore, axis_score_ahead, toFloat_one]
      norm_num
    · rw [h, floatScore, axis_score_right, toFloat_zero]
      norm_num
  have hB : steeringController.IsAttacking = false ∨ steeringController.selectedAiIndex = -1 :=
    Or.inl rfl
  have hne : axisWorld.AiActorsInMap ≠ [] := by simp [axisWorld]
  have hI : inputDeadZone ≤ exactEngine.Length steeringController.CurrentInputDirection := by
    rw [exactEngine_length_forward]
    norm_num [inputDeadZone]
  ⟨hS, hB, hne, hI,
    Tick_selects_first_best exactEngine axisWorld (1 / 10) steeringController hS hB hne hI⟩

/-- C1, the claim as stated, evaluated on the code.  First: of two enemies
whose `double` scores `1 - 2 ^ -53` and `1` narrow to the same `float`, `Tick`
selects index `0`, although enemy `1` has the strictly greater score.  Second:
with an input direction of length `0.1` (as a `double`, which is at least one
tenth and below the `float` literal `0.1f`) `Tick` takes its dead-zone branch
and writes index `0`, although enemy `1` has the strictly greater score. -/
theorem Tick_selection_not_maximal :
    ((steeringController.IsAttacking = false ∧
      nearTieWorld.AiActorsInMap ≠ [] ∧
      1 / 10 ≤ unitAwareEngine.Length steeringController.CurrentInputDirection) ∧
      ∃ s', Tick unitAwareEngine nearTieWorld (1 / 10) steeringController = some s' ∧
        s'.selectedAiIndex = 0 ∧
        nearTieWorld.AiActorsInMap[0]? = some ⟨belowOne, 1 / 67108864, 0⟩ ∧
        nearTieWorld.AiActorsInMap[1]? = some ⟨1, 0, 0⟩ ∧
        targetScore unitAwareEngine nearTieWorld steeringController ⟨belowOne, 1 / 67108864, 0⟩
          < targetScore unitAwareEngine nearTieWorld steeringController ⟨1, 0, 0⟩) ∧
    ((nudgingController.IsAttacking = false ∧
      sideWorld.AiActorsInMap ≠ [] ∧
      1 / 10 ≤ exactEngine.Length nudgingController.CurrentInputDirection) ∧
      ∃ s', Tick exactEngine sideWorld (1 / 10) nudgingController = some s' ∧
        s'.selectedAiIndex = 0 ∧
        sideWorld.AiActorsInMap[0]? = some ⟨0, 5, 0⟩ ∧
        sideWorld.AiActorsInMap[1]? = some ⟨5, 0, 0⟩ ∧
        targetScore exactEngine sideWorld nudgingController ⟨0, 5, 0⟩
          < targetScore exactEngine sideWorld nudgingController ⟨5, 0, 0⟩) := by
  constructor
  · have hlen : unitAwareEngine.Length steeringController.CurrentInputDirection = 1 :=
      exactEngine_length_forward
    have hI : inputDeadZone ≤ unitAwareEngine.Length steeringController.CurrentInputDirection := by
      rw [hlen]
      norm_num [inputDeadZone]
    have hf0 : floatScore unitAwareEngine nearTieWorld steeringController
        ⟨belowOne, 1 / 67108864, 0⟩ = 1 := by
      rw [floatScore, nearTie_score_first, toFloat_belowOne]
    have hf1 : floatScore unitAwareEngine nearTieWorld steeringController ⟨1, 0, 0⟩ = 1 := by
      rw [floatScore, nearTie_score_second, toFloat_one]
    have hlist : nearTieWorld.AiActorsInMap = [⟨belowOne, 1 / 67108864, 0⟩, ⟨1, 0, 0⟩] := rfl
    obtain ⟨s', k, enemy, hT, hsel, hk, hget, -, hfirst⟩ :=
      Tick_selecting_spec unitAwareEngine nearTieWorld (1 / 10) steeringController
        ⟨⟨1, 0, 0⟩, by simp [hlist], by rw [hf1]; norm_num⟩ (Or.inl rfl) hI
    have henemy : floatScore unitAwareEngine nearTieWorld steeringController enemy = 1 := by
      have hmem := List.getElem?_mem hget
      rw [hlist] at hmem
      simp only [List.mem_cons, List.mem_singleton, List.not_mem_nil, or_false] at hmem
      rcases hmem with h | h
      · rw [h, hf0]
      · rw [h, hf1]
    have hk0 : k = 0 := by
      have := hfirst 0 ⟨belowOne, 1 / 67108864, 0⟩ (by simp [hlist]) (by rw [hf0, henemy])
      omega
    refine ⟨⟨rfl, by simp [hlist], by rw [hlen]; norm_num⟩, s', hT, ?_, by simp [hlist],
      by simp [hlist], ?_⟩
    · rw [hsel, hk0]
      rfl
    · rw [nearTie_score_first, nearTie_score_second]
      norm_num [belowOne]
  · have hI : exactEngine.Length nudgingController.CurrentInputDirection < inputDeadZone := by
      rw [exactEngine_length_nudge]
      norm_num [tenthDouble, inputDeadZone]
    have hlist : sideWorld.AiActorsInMap = [⟨0, 5, 0⟩, ⟨5, 0, 0⟩] := rfl
    refine ⟨⟨rfl, by simp [hlist], ?_⟩, _,
      Tick_no_input exactEngine sideWorld (1 / 10) nudgingController rfl hI, rfl,
      by simp [hlist], by simp [hlist], ?_⟩
    · rw [exactEngine_length_nudge]
      norm_num [tenthDouble]
    · rw [side_score_right, side_score_ahead]
      norm_num

/-! ## The dead zone -/

theorem exactEngine_length_idle :
    exactEngine.Length idleController.CurrentInputDirection = 0 := by
  show exactSize _ = 0
  apply exactSize_eq _ 0 (by norm_num)
  norm_num [exactSizeSquared, idleController]

/-- C3, evaluated on the code. An idle controller (not attacking, no input,
enemy 1 selected) goes through `Tick`: afterwards `selectedAiIndex` is `0`,
which is not the no-selection value `-1`, and an `Attack` issued right after
does start an attack. -/
theorem Tick_no_input_keeps_a_selection :
    idleController.IsAttacking = false ∧
    exactEngine.Length idleController.CurrentInputDirection < inputDeadZone ∧
    ∃ s', Tick exactEngine sampleWorld (1 / 10) idleController = some s' ∧
      s'.selectedAiIndex = 0 ∧
      s'.selectedAiIndex ≠ -1 ∧
      (Attack s').IsAttacking = true := by
  have hI : exactEngine.Length idleController.CurrentInputDirection < inputDeadZone := by
    rw [exactEngine_length_idle]
    norm_num [inputDeadZone]
  refine ⟨rfl, hI, _, Tick_no_input exactEngine sampleWorld (1 / 10) idleController rfl hI, rfl, ?_, ?_⟩
  · simp
  · simp [Attack, idleController]

/-! ## Input handling during an attack -/

/-- C5. While `IsAttacking` is true, `Move` with any input vector returns the
controller state unchanged: `CurrentInputDirection` keeps its value and no
movement input is added. -/
theorem Move_ignored_while_attacking (E : Engine) (w : World) (v : FVector2D)
    (s : AThirdPersonController) (hA : s.IsAttacking = true) :
    Move E w v s = s ∧
      (Move E w v s).CurrentInputDirection = s.CurrentInputDirection ∧
      (Move E w v s).ControlInputVector = s.ControlInputVector := by
  have h : Move E w v s = s := by
    unfold Move
    rw [if_pos hA]
  rw [h]
  exact ⟨rfl, rfl, rfl⟩

theorem Move_ignored_while_attacking_witness :
    attackingController.IsAttacking = true ∧
    Move exactEngine sampleWorld ⟨1, 0⟩ attackingController = attackingController ∧
      (Move exactEngine sampleWorld ⟨1, 0⟩ attackingController).CurrentInputDirection
        = attackingController.CurrentInputDirection ∧
      (Move exactEngine sampleWorld ⟨1, 0⟩ attackingController).ControlInputVector
        = attackingController.ControlInputVector :=
  ⟨rfl, Move_ignored_while_attacking exactEngine sampleWorld ⟨1, 0⟩ attackingController rfl⟩

/-! ## The target of a running attack -/

/-- One event on an attacking controller with a selection leaves
`selectedAiIndex` and `startingLocation` as they were. -/
theorem step_locked (E : Engine) (e : Event) (s s' : AThirdPersonController)
    (hA : s.IsAttacking = true) (hS : s.selectedAiIndex ≠ -1)
    (h : step E e s = some s') :
    s'.selectedAiIndex = s.selectedAiIndex ∧ s'.startingLocation = s.startingLocation := by
  cases e with
  | tick w d =>
    simp only [step] at h
    cases hE : actorAt w.AiActorsInMap s.selectedAiIndex with
    | none =>
      unfold Tick SuperTick at h
      simp [hA, hS, hE] at h
    | some enemy =>
      rw [Tick_attacking E w d s enemy hA hS hE] at h
      split_ifs at h <;>
        · simp only [Option.some.injEq] at h
          subst h
          exact ⟨rfl, rfl⟩
  | move w v =>
    simp only [step, Move, hA, if_true, Option.some.injEq] at h
    subst h
    exact ⟨rfl, rfl⟩
  | moveCancelled =>
    simp only [step, MoveCancelled, Option.some.injEq] at h
    subst h
    exact ⟨rfl, rfl⟩
  | attack =>
    simp only [step, Attack, hA, Bool.true_eq_false, and_false, if_false,
      Option.some.injEq] at h
    subst h
    exact ⟨rfl, rfl⟩

/-- An event on an attacking controller completes, provided that for a tick
the selected index is in range of the enemy list of that frame. -/
theorem step_isSome (E : Engine) (e : Event) (s : AThirdPersonController)
    (hA : s.IsAttacking = true) (hS : s.selectedAiIndex ≠ -1)
    (hV : ∀ w d, e = Event.tick w d → (actorAt w.AiActorsInMap s.selectedAiIndex).isSome = true) :
    (step E e s).isSome = true := by
  cases e with
  | tick w d =>
    have h := hV w d rfl
    rcases Option.isSome_iff_exists.mp h with ⟨enemy, hE⟩
    simp only [step]
    rw [Tick_attacking E w d s enemy hA hS hE]
    split_ifs <;> rfl
  | move w v => rfl
  | moveCancelled => rfl
  | attack => rfl

/-- Along a run in which the controller is still attacking after every proper
prefix, the selection and the lerp start point are those of the start. -/
theorem runEvents_locked (E : Engine) (es : List Event) :
    ∀ (s s' : AThirdPersonController),
      s.IsAttacking = true → s.selectedAiIndex ≠ -1 →
      runEvents E es s = some s' →
      (∀ pre t, pre <+: es → pre ≠ es → runEvents E pre s = some t → t.IsAttacking = true) →
      s'.selectedAiIndex = s.selectedAiIndex ∧ s'.startingLocation = s.startingLocation := by
  induction es with
  | nil =>
    intro s s' _ _ h _
    simp only [runEvents, Option.some.injEq] at h
    subst h
    exact ⟨rfl, rfl⟩
  | cons e rest ih =>
    intro s s' hA hS h hpre
    simp only [runEvents] at h
    rcases Option.bind_eq_some.mp h with ⟨t, ht, hrest⟩
    have hstep := step_locked E e s t hA hS ht
    by_cases hnil : rest = []
    · subst hnil
      simp only [runEvents, Option.some.injEq] at hrest
      subst hrest
      exact hstep
    · have htA : t.IsAttacking = true := by
        apply hpre [e] t
        · exact List.prefix_cons_inj e |>.mpr (List.nil_prefix)
        · intro hc
          apply hnil
          simpa using hc.symm
        · simp [runEvents, ht]
      have htS : t.selectedAiIndex ≠ -1 := by
        rw [hstep.1]
        exact hS
      have := ih t s' htA htS hrest (by
        intro pre u hp hne hu
        apply hpre (e :: pre) u
        · exact (List.prefix_cons_inj e).mpr hp
        · intro hc
          apply hne
          simpa using hc
        · simp [runEvents, ht, hu])
      exact ⟨this.1.trans hstep.1, this.2.trans hstep.2⟩

/-- C4. On a controller that is attacking with a selection
(`selectedAiIndex` other than `-1`), each of `Tick` (any world), `Move` (any
input), `MoveCancelled` and `Attack` leaves `selectedAiIndex` and
`startingLocation` unchanged, and each of them completes (a `Tick` when the
selected index is in range of that frame's enemy list).  Hence after any
sequence of such events during which the controller was still attacking after
every proper prefix, both are what they were at the start. -/
theorem attack_target_locked (E : Engine) (s : AThirdPersonController)
    (hA : s.IsAttacking = true) (hS : s.selectedAiIndex ≠ -1) :
    (∀ w d s', Tick E w d s = some s' →
      s'.selectedAiIndex = s.selectedAiIndex ∧ s'.startingLocation = s.startingLocation) ∧
    (∀ w d, (actorAt w.AiActorsInMap s.selectedAiIndex).isSome = true →
      (Tick E w d s).isSome = true) ∧
    (∀ w v, (Move E w v s).selectedAiIndex = s.selectedAiIndex ∧
      (Move E w v s).startingLocation = s.startingLocation) ∧
    ((MoveCancelled s).selectedAiIndex = s.selectedAiIndex ∧
      (MoveCancelled s).startingLocation = s.startingLocation) ∧
    ((Attack s).selectedAiIndex = s.selectedAiIndex ∧
      (Attack s).startingLocation = s.startingLocation) ∧
    (∀ es s', runEvents E es s = some s' →
      (∀ pre t, pre <+: es → pre ≠ es → runEvents E pre s = some t → t.IsAttacking = true) →
      s'.selectedAiIndex = s.selectedAiIndex ∧ s'.startingLocation = s.startingLocation) := by
  refine ⟨?_, ?_, ?_, ?_, ?_, ?_⟩
  · intro w d s' h
    exact step_locked E (Event.tick w d) s s' hA hS h
  · intro w d h
    apply step_isSome E (Event.tick w d) s hA hS
    intro w2 d2 hw
    cases hw
    exact h
  · intro w v
    exact step_locked E (Event.move w v) s _ hA hS rfl
  · exact step_locked E Event.moveCancelled s _ hA hS rfl
  · exact step_locked E Event.attack s _ hA hS rfl
  · intro es s' h hpre
    exact runEvents_locked E es s s' hA hS h hpre

theorem attack_target_locked_witness :
    attackingController.IsAttacking = true ∧ attackingController.selectedAiIndex ≠ -1 ∧
    (∀ w d s', Tick exactEngine w d attackingController = some s' →
      s'.selectedAiIndex = attackingController.selectedAiIndex ∧
        s'.startingLocation = attackingController.startingLocation) ∧
    (∀ w d, (actorAt w.AiActorsInMap attackingController.selectedAiIndex).isSome = true →
      (Tick exactEngine w d attackingController).isSome = true) ∧
    (∀ w v, (Move exactEngine w v attackingController).selectedAiIndex
        = attackingController.selectedAiIndex ∧
      (Move exactEngine w v attackingController).startingLocation
        = attackingController.startingLocation) ∧
    ((MoveCancelled attackingController).selectedAiIndex = attackingController.selectedAiIndex ∧
      (MoveCancelled attackingController).startingLocation
        = attackingController.startingLocation) ∧
    ((Attack attackingController).selectedAiIndex = attackingController.selectedAiIndex ∧
      (Attack attackingController).startingLocation = attackingController.startingLocation) ∧
    (∀ es s', runEvents exactEngine es attackingController = some s' →
      (∀ pre t, pre <+: es → pre ≠ es →
        runEvents exactEngine pre attackingController = some t → t.IsAttacking = true) →
      s'.selectedAiIndex = attackingController.selectedAiIndex ∧
        s'.startingLocation = attackingController.startingLocation) :=
  have hS : attackingController.selectedAiIndex ≠ -1 := by
    simp [attackingController, idleController]
  ⟨rfl, hS, attack_target_locked exactEngine attackingController rfl hS⟩

end ThirdPersonController
